import Mathlib

/-!
Verification development for the font engine and font registry of the
Chess-InkPlate repository.

The embedding covers:
* `TTF` — the glyph rasterization cache of `src/src/models/ttf2.cpp`
  (`get_glyph_internal`, `set_font_size`, `get_size`, `clear_cache`,
  `byte_pool_alloc`, `add_buff_to_byte_pool`);
* `Fonts` — the font registry of `src/unnamed/part_002` and
  `src/include/models/fonts.hpp` (`add`, `clear`, `get`, `get_index`,
  `adjust_font_style`).

External FreeType calls (`FT_Get_Char_Index`, `FT_Load_Glyph`,
`FT_Render_Glyph`, `FT_Set_Char_Size`) are modelled as total functions
packaged in a `Face` record: the loaded/rendered glyph-slot content is a
function of the glyph index and the currently configured character size.
`FT_Set_Char_Size` is modelled as always succeeding (its failure is an
external-library condition, not a code path of this repository's logic).
The render mode chosen from the screen's pixel resolution (1-bit vs
grayscale) only selects a FreeType render mode; the slot abstraction does
not distinguish the two modes.

The header `ttf2.hpp` (declaring `Dim`, `BitmapGlyph`, the cache map types
and `BYTE_POOL_SIZE`) is not part of the provided sources; those record
types are reconstructed from their uses in `ttf2.cpp` and from the spec,
and the byte-pool chunk size is kept as an explicit parameter `B`.
-/

namespace ChessFonts

/-- `Fonts::FaceStyle` from `src/include/models/fonts.hpp`:
`enum class FaceStyle : uint8_t { NORMAL = 0, BOLD, ITALIC, BOLD_ITALIC }`. -/
inductive FaceStyle where
  | NORMAL
  | BOLD
  | ITALIC
  | BOLD_ITALIC
deriving DecidableEq, Repr

/-- `Fonts::adjust_font_style` from `src/unnamed/part_002`, lines 190-227:
two sequential `if`/`else if` blocks mutate a local `style` variable; the
first block applies the requested `font_style` (italic flag), the second
the requested `font_weight` (bold flag). -/
def adjust_font_style (style font_style font_weight : FaceStyle) : FaceStyle :=
  let style :=
    if font_style = FaceStyle.ITALIC then
      if style = FaceStyle.NORMAL then FaceStyle.ITALIC
      else if style = FaceStyle.BOLD then FaceStyle.BOLD_ITALIC
      else style
    else if font_style = FaceStyle.NORMAL then
      if style = FaceStyle.BOLD_ITALIC then FaceStyle.BOLD
      else if style = FaceStyle.ITALIC then FaceStyle.NORMAL
      else style
    else style
  if font_weight = FaceStyle.BOLD then
    if style = FaceStyle.ITALIC then FaceStyle.BOLD_ITALIC
    else if style = FaceStyle.NORMAL then FaceStyle.BOLD
    else style
  else if font_weight = FaceStyle.NORMAL then
    if style = FaceStyle.BOLD then FaceStyle.NORMAL
    else if style = FaceStyle.BOLD_ITALIC then FaceStyle.ITALIC
    else style
  else style

/-- The italic adjustment of `adjust_font_style` taken on its own (the first
`if`/`else if` block of the source function). -/
def italicAdjust (font_style style : FaceStyle) : FaceStyle :=
  if font_style = FaceStyle.ITALIC then
    if style = FaceStyle.NORMAL then FaceStyle.ITALIC
    else if style = FaceStyle.BOLD then FaceStyle.BOLD_ITALIC
    else style
  else if font_style = FaceStyle.NORMAL then
    if style = FaceStyle.BOLD_ITALIC then FaceStyle.BOLD
    else if style = FaceStyle.ITALIC then FaceStyle.NORMAL
    else style
  else style

/-- The weight adjustment of `adjust_font_style` taken on its own (the second
`if`/`else if` block of the source function). -/
def weightAdjust (font_weight style : FaceStyle) : FaceStyle :=
  if font_weight = FaceStyle.BOLD then
    if style = FaceStyle.ITALIC then FaceStyle.BOLD_ITALIC
    else if style = FaceStyle.NORMAL then FaceStyle.BOLD
    else style
  else if font_weight = FaceStyle.NORMAL then
    if style = FaceStyle.BOLD then FaceStyle.NORMAL
    else if style = FaceStyle.BOLD_ITALIC then FaceStyle.ITALIC
    else style
  else style

/-- `Dim` (from the missing `ttf2.hpp` / `global.hpp` header, reconstructed
from its uses in `TTF::get_size`): a width/height pair. -/
structure Dim where
  width : Int
  height : Int
deriving DecidableEq, Repr

/-- The FreeType glyph-slot content after `FT_Load_Glyph` (and, for outline
formats, `FT_Render_Glyph`): the fields of `face->glyph` that
`get_glyph_internal` reads. `loadOk`/`renderOk` model the error returns of
the two FreeType calls; `bytes` is the content of `slot->bitmap.buffer`. -/
structure SlotData where
  loadOk : Bool
  isBitmapFormat : Bool
  renderOk : Bool
  bitmapPitch : Int
  bitmapRows : Int
  bitmapWidth : Int
  bitmapLeft : Int
  bitmapTop : Int
  advanceX : Int
  bytes : List Nat
deriving DecidableEq, Repr

/-- An opened FreeType face (`FT_Face`): `charIndex` models
`FT_Get_Char_Index` (0 = no glyph for the charcode); `slot` gives the
glyph-slot content as a function of the glyph index and the character size
currently configured by `FT_Set_Char_Size`. -/
structure Face where
  charIndex : Int → Nat
  slot : Nat → Int → SlotData

/-- `TTF::BitmapGlyph` (reconstructed from its uses in `ttf2.cpp`): the
`root` back-pointer to the owning `TTF` is omitted (it is always `this`);
the pooled `buffer` pointer is modelled by the copied byte content itself
(`none` models the null buffer of a zero-size bitmap). -/
structure BitmapGlyph where
  width : Int
  height : Int
  pitch : Int
  xoff : Int
  yoff : Int
  advance : Int
  buffer : Option (List Nat)
deriving DecidableEq, Repr

/-- The glyph cache `GlyphsCache` (`pixel size → charcode → BitmapGlyph *`),
modelled as a two-level association list. -/
abbrev GlyphsCache : Type := List (Int × List (Int × BitmapGlyph))

/-- Lookup in the inner `Glyphs` map (charcode → glyph). -/
def glyphsFind (g : List (Int × BitmapGlyph)) (charcode : Int) :
    Option BitmapGlyph :=
  match g with
  | [] => none
  | (c, gl) :: rest => if c = charcode then some gl else glyphsFind rest charcode

/-- Lookup `cache[size][charcode]`, `none` when either level misses. -/
def cacheFind (cache : GlyphsCache) (size charcode : Int) :
    Option BitmapGlyph :=
  match cache with
  | [] => none
  | (sz, g) :: rest =>
      if sz = size then glyphsFind g charcode else cacheFind rest size charcode

/-- Insert/overwrite in the inner `Glyphs` map. -/
def glyphsInsert (g : List (Int × BitmapGlyph)) (charcode : Int)
    (gl : BitmapGlyph) : List (Int × BitmapGlyph) :=
  match g with
  | [] => [(charcode, gl)]
  | (c, gl0) :: rest =>
      if c = charcode then (c, gl) :: rest
      else (c, gl0) :: glyphsInsert rest charcode gl

/-- `cache[size][charcode] = glyph` — `unordered_map::operator[]` creates the
missing levels. -/
def cacheInsert (cache : GlyphsCache) (size charcode : Int)
    (gl : BitmapGlyph) : GlyphsCache :=
  match cache with
  | [] => [(size, [(charcode, gl)])]
  | (sz, g) :: rest =>
      if sz = size then (sz, glyphsInsert g charcode gl) :: rest
      else (sz, g) :: cacheInsert rest size charcode gl

/-- The state of one `TTF` object that `get_glyph_internal` reads and
writes: the opened face (null when no resource is open), `current_size`
(the size last configured with `set_font_size`, `-1` after construction or
`clear_face`), and the glyph cache. The byte pools backing the bitmap
copies are modelled separately (`PoolState`); here a glyph carries its
copied bytes directly. -/
structure TTFState where
  face : Option Face
  current_size : Int
  cache : GlyphsCache

/-- Observable actions of one `get_glyph_internal` call:
`set_size_called` — `set_font_size` was invoked (re-configuring the
FreeType size state); `rasterized` — `FT_Load_Glyph` was invoked (the
rasterization work of a cache miss). -/
structure GlyphEvents where
  set_size_called : Bool
  rasterized : Bool
deriving DecidableEq, Repr

/-- Build the `BitmapGlyph` from the loaded/rendered slot, as in
`ttf2.cpp` lines 164-211. The earlier assignments of `dim` from
`slot->metrics >> 6` are dead (overwritten from `slot->bitmap` before any
use) and are not modelled. `>> 6` on the 26.6 fixed-point advance is
arithmetic shift, i.e. flooring division by 64. -/
def mkGlyph (slot : SlotData) : BitmapGlyph :=
  let pitch := slot.bitmapPitch
  let height := slot.bitmapRows
  let width := slot.bitmapWidth
  let size := pitch * height
  { width := width
    height := height
    pitch := pitch
    xoff := slot.bitmapLeft
    yoff := -slot.bitmapTop
    advance := Int.fdiv slot.advanceX 64
    buffer := if 0 < size then some (slot.bytes.take size.toNat) else none }

/-- `TTF::get_glyph_internal` (`ttf2.cpp` lines 121-226). Returns the glyph
(null on face-missing / unknown charcode / load / render failure), the
updated state, and the observable events. `set_font_size` is inlined as
the always-successful update of `current_size` (see the header comment);
after it, `current_size = glyph_size`, so the insertion key
`cache[current_size][charcode]` is `(glyph_size, charcode)`. -/
def get_glyph_internal (s : TTFState) (charcode glyph_size : Int) :
    Option BitmapGlyph × TTFState × GlyphEvents :=
  match s.face with
  | none => (none, s, ⟨false, false⟩)
  | some f =>
    match cacheFind s.cache glyph_size charcode with
    | some g => (some g, s, ⟨false, false⟩)
    | none =>
      let setNeeded : Bool := decide (s.current_size ≠ glyph_size)
      let s1 : TTFState :=
        if s.current_size ≠ glyph_size then
          { s with current_size := glyph_size } else s
      let glyph_index := f.charIndex charcode
      if glyph_index = 0 then
        (none, s1, ⟨setNeeded, false⟩)
      else
        let slot := f.slot glyph_index s1.current_size
        if slot.loadOk = false then
          (none, s1, ⟨setNeeded, true⟩)
        else if slot.isBitmapFormat = false ∧ slot.renderOk = false then
          (none, s1, ⟨setNeeded, true⟩)
        else
          let glyph := mkGlyph slot
          (some glyph,
           { s1 with
              cache := cacheInsert s1.cache s1.current_size charcode glyph },
           ⟨setNeeded, true⟩)

/-- `TTF::get_glyph` (`ttf2.cpp` lines 115-119) just forwards to
`get_glyph_internal`. -/
def get_glyph (s : TTFState) (charcode glyph_size : Int) :
    Option BitmapGlyph × TTFState × GlyphEvents :=
  get_glyph_internal s charcode glyph_size

/-- The pure rasterization result for a charcode at a configured size: what
a cache miss computes and caches. This is a function of the face alone
because the slot content is. -/
def glyphAt (f : Face) (charcode size : Int) : Option BitmapGlyph :=
  let glyph_index := f.charIndex charcode
  if glyph_index = 0 then none
  else
    let slot := f.slot glyph_index size
    if slot.loadOk = false then none
    else if slot.isBitmapFormat = false ∧ slot.renderOk = false then none
    else some (mkGlyph slot)

/-- Cache consistency: every cached entry is the glyph that rasterization
at its key would produce. Holds for the empty cache and is preserved by
`get_glyph_internal`; it makes the returned glyph a pure function of
`(charcode, size)`. -/
def CacheConsistent (f : Face) (cache : GlyphsCache) : Prop :=
  ∀ sz c g, cacheFind cache sz c = some g → glyphAt f c sz = some g

/-- The loop body of `TTF::get_size` (`ttf2.cpp` lines 304-326): walk the
characters, thread the `TTF` state through `get_glyph_internal`,
accumulate the advance sum and the running ascent/descent maxima (null
glyphs are skipped). -/
def get_size_loop (s : TTFState) (cs : List Int) (glyph_size : Int)
    (w max_up max_down : Int) : Int × Int × Int × TTFState :=
  match cs with
  | [] => (w, max_up, max_down, s)
  | c :: rest =>
    match get_glyph_internal s c glyph_size with
    | (none, s1, _) => get_size_loop s1 rest glyph_size w max_up max_down
    | (some glyph, s1, _) =>
      let w := w + glyph.advance
      let up := -glyph.yoff
      let down := glyph.height + glyph.yoff
      let max_up := if up > max_up then up else max_up
      let max_down := if down > max_down then down else max_down
      get_size_loop s1 rest glyph_size w max_up max_down

/-- `TTF::get_size`: the input C string is modelled as the list of its
(non-NUL) character codes; returns the computed `Dim` and the updated
`TTF` state (the walk fills the glyph cache; no page-layout state is
involved anywhere in `TTF`). -/
def get_size (s : TTFState) (str : List Int) (glyph_size : Int) :
    Dim × TTFState :=
  match get_size_loop s str glyph_size 0 0 0 with
  | (w, max_up, max_down, s1) => (⟨w, max_up + max_down⟩, s1)

/-- `TTF::clear_cache` (`ttf2.cpp` lines 97-113): releases every cached
glyph and all byte pools; on this state it empties the cache (the face and
`current_size` are untouched). -/
def clear_cache (s : TTFState) : TTFState :=
  { s with cache := [] }

/-- `TTF::clear_face` (`ttf2.cpp` lines 86-95): clear the cache, close the
FreeType face (`FT_Done_Face`), free the memory font, reset
`current_size` to -1. -/
def clear_face (s : TTFState) : TTFState :=
  { clear_cache s with face := none, current_size := -1 }

/-- The spec-side width of `get_size`: the sum of the advances of the
characters that have a glyph at this size. -/
def widthSpec (f : Face) (str : List Int) (glyph_size : Int) : Int :=
  ((str.filterMap (fun c => glyphAt f c glyph_size)).map
    (fun g => g.advance)).sum

/-- The spec-side maximal ascent (clamped below by 0, the loop's initial
accumulator) over the characters that have a glyph at this size. -/
def ascentSpec (f : Face) (str : List Int) (glyph_size : Int) : Int :=
  (str.filterMap (fun c => glyphAt f c glyph_size)).foldl
    (fun m g => max m (-g.yoff)) 0

/-- The spec-side maximal descent (clamped below by 0) over the characters
that have a glyph at this size. -/
def descentSpec (f : Face) (str : List Int) (glyph_size : Int) : Int :=
  (str.filterMap (fun c => glyphAt f c glyph_size)).foldl
    (fun m g => max m (g.height + g.yoff)) 0

/-- The byte-pool state of one `TTF` object: `byte_pools` counts the
chunks allocated so far (the front chunk — the one allocations are served
from — is chunk number `byte_pools`; `std::forward_list::push_front`), and
`byte_pool_idx` is the bump cursor into the front chunk. -/
structure PoolState where
  byte_pools : Nat
  byte_pool_idx : Nat
deriving DecidableEq, Repr

/-- A buffer handed out by `byte_pool_alloc`: which chunk it lies in, the
offset of its first byte in that chunk, and its length. -/
structure PoolBuff where
  chunk : Nat
  off : Nat
  size : Nat
deriving DecidableEq, Repr

/-- `TTF::add_buff_to_byte_pool` (`ttf2.cpp` lines 55-66): allocate a fresh
chunk of `BYTE_POOL_SIZE` bytes, push it to the front of the pool list and
reset the cursor to 0 (allocation failure is the fatal out-of-memory path,
outside this model). -/
def add_buff_to_byte_pool (s : PoolState) : PoolState :=
  { byte_pools := s.byte_pools + 1, byte_pool_idx := 0 }

/-- `TTF::byte_pool_alloc` (`ttf2.cpp` lines 68-84), with the chunk size
`BYTE_POOL_SIZE` (declared in the missing `ttf2.hpp`) kept as the explicit
parameter `B`. A request larger than `B` hits `std::abort()`, modelled as
`none`; otherwise a new chunk is opened exactly when the pool is empty or
the cursor plus the request would run past the chunk end, and the buffer
is carved from the front chunk at the cursor. -/
def byte_pool_alloc (B : Nat) (s : PoolState) (size : Nat) :
    Option (PoolBuff × PoolState) :=
  if size > B then none
  else
    let s1 :=
      if s.byte_pools = 0 ∨ s.byte_pool_idx + size > B then
        add_buff_to_byte_pool s
      else s
    some ({ chunk := s1.byte_pools, off := s1.byte_pool_idx, size := size },
          { s1 with byte_pool_idx := s1.byte_pool_idx + size })

/-- A whole sequence of byte-pool allocations, collecting the buffers
handed out; `none` as soon as one request aborts. -/
def runAllocs (B : Nat) (s : PoolState) :
    List Nat → Option (List PoolBuff × PoolState)
  | [] => some ([], s)
  | size :: rest =>
    match byte_pool_alloc B s size with
    | none => none
    | some (b, s1) =>
      match runAllocs B s1 rest with
      | none => none
      | some (bs, sf) => some (b :: bs, sf)

/-- `Fonts::FontEntry` (`fonts.hpp` lines 26-30), plus the
`fonts_cache_index` that `Fonts::add` stores into the owned `TTF` object.
The owned `TTF *` is modelled by the `TTF` state itself. -/
structure FontEntry where
  name : String
  font : TTFState
  fontIndex : Nat
  style : FaceStyle

/-- The default-constructed `FontEntry` that `std::vector::resize` appends
when growing (empty name, value-initialized `TTF *` = null font modelled
as a closed `TTF` state, style 0 = NORMAL). -/
def defaultFontEntry : FontEntry :=
  { name := "", font := ⟨none, 0, []⟩, fontIndex := 0, style := FaceStyle.NORMAL }

/-- The `Fonts` registry state: the `font_cache` vector. -/
structure FontsState where
  font_cache : List FontEntry

/-- Number of registry entries whose key equals `(name, style)`. -/
def countKey (st : FontsState) (name : String) (style : FaceStyle) : Nat :=
  (st.font_cache.filter
    (fun e => e.name == name && e.style == style)).length

/-- `Fonts::add(name, style, filename)` (`src/unnamed/part_002` lines
114-149). Opening the font resource (`new TTF(filename)` followed by
`ready()`) is external I/O, modelled by the parameter `openFont`
(`none` = allocation failure or a face that did not open; the partially
constructed `TTF` is deleted, leaving no new entry). Returns the success
flag, the new registry state, and whether the open was attempted (false on
the idempotent early return). -/
def Fonts_add (openFont : String → Option TTFState) (st : FontsState)
    (name : String) (style : FaceStyle) (filename : String) :
    Bool × FontsState × Bool :=
  if st.font_cache.any (fun e => e.name == name && e.style == style) then
    (true, st, false)
  else
    match openFont filename with
    | some ttf =>
        let f : FontEntry :=
          { name := name, font := ttf,
            fontIndex := st.font_cache.length, style := style }
        (true, { font_cache := st.font_cache ++ [f] }, true)
    | none => (false, st, true)

/-- The loop of `Fonts::clear` (`src/unnamed/part_002` lines 80-86): walk
the entries with a counter; entries that will be discarded (`all` or index
≥ 5) are deleted in place (kept here — the subsequent resize removes
them), the retained ones get their glyph caches purged. -/
def clearLoop (all : Bool) : Nat → List FontEntry → List FontEntry
  | _, [] => []
  | i, e :: rest =>
      (if all ∨ 5 ≤ i then e else { e with font := clear_cache e.font }) ::
        clearLoop all (i + 1) rest

/-- `std::vector::resize(n)`: truncate to `n` entries, or pad with
default-constructed entries when the vector is shorter than `n`. -/
def listResize (l : List FontEntry) (n : Nat) : List FontEntry :=
  if n ≤ l.length then l.take n
  else l ++ List.replicate (n - l.length) defaultFontEntry

/-- `Fonts::clear(all)` (`src/unnamed/part_002` lines 75-90): purge the
caches of the entries being kept, then
`font_cache.resize(all ? 0 : 5)`. (`reserve` does not change content.)
Modelled from the spec in one respect: the body sits under
`#if USE_EPUB_FONTS` and the configuration header defining that flag is
not among the provided sources; the spec describes the enabled behavior,
so the flag is taken as defined. -/
def Fonts_clear (st : FontsState) (all : Bool) : FontsState :=
  { font_cache :=
      listResize (clearLoop all 0 st.font_cache) (if all then 0 else 5) }

/-- `Fonts::get(index)` (`fonts.hpp` lines 42-52). `index` is a signed
16-bit value; the guard `index >= font_cache.size()` compares it, after
the usual arithmetic conversions, as an unsigned 32-bit value (`size_t` on
the ESP32 target), so a negative index wraps to a huge unsigned value and
takes the fallback branch. `font_cache.at(...)` throws on an out-of-range
argument — only possible for `at(0)` on an empty registry — modelled by
`none`. -/
def Fonts_get (st : FontsState) (index : Int) : Option TTFState :=
  let idxU : Nat := (index % (4294967296 : Int)).toNat
  if st.font_cache.length ≤ idxU then
    (st.font_cache.get? 0).map (fun e => e.font)
  else
    (st.font_cache.get? idxU).map (fun e => e.font)

/-- A concrete synthetic face used for evaluation: charcodes 65 and 66 map
to glyph indices 1 and 2, everything else has no glyph; every load/render
succeeds and the slot content depends on glyph index and configured
size. -/
def testFace : Face :=
  { charIndex := fun c => if c = 65 then 1 else if c = 66 then 2 else 0
    slot := fun gi size =>
      { loadOk := true
        isBitmapFormat := true
        renderOk := true
        bitmapPitch := 1
        bitmapRows := 2
        bitmapWidth := 3
        bitmapLeft := 0
        bitmapTop := 1
        advanceX := 64 * ((gi : Int) + size)
        bytes := [gi, gi] } }

/-- A freshly constructed `TTF` on `testFace`: empty cache,
`current_size = -1`. -/
def ttfS0 : TTFState :=
  { face := some testFace, current_size := -1, cache := [] }

/-- State after `get_glyph(65, 10)` on `ttfS0` (rasterizes and caches at
size 10). -/
def ttfS1 : TTFState := (get_glyph ttfS0 65 10).2.1

/-- State after a further `get_glyph(66, 12)` (the face's last-used size is
now 12). -/
def ttfS2 : TTFState := (get_glyph ttfS1 66 12).2.1

/-- The concrete glyph that `testFace` rasterizes for charcode 65 at
size 10. -/
def glyphA : BitmapGlyph := mkGlyph (testFace.slot 1 10)

/-- A concrete opened-`TTF` value standing for a successfully loaded font
resource in registry fixtures. -/
def ttfOpened : TTFState :=
  { face := some testFace, current_size := -1, cache := [] }

/-- A concrete registry entry fixture. -/
def entry1 : FontEntry := FontEntry.mk "Default" ttfOpened 0 FaceStyle.NORMAL

/-- A concrete one-entry registry fixture. -/
def fontsSt1 : FontsState := FontsState.mk [entry1]

/-- A concrete six-entry registry fixture (five built-ins plus one
book-supplied entry). -/
def fontsSt6 : FontsState :=
  { font_cache :=
      [{ name := "Drawings", font := ttfOpened, fontIndex := 0,
         style := FaceStyle.NORMAL },
       { name := "Default", font := ttfOpened, fontIndex := 1,
         style := FaceStyle.NORMAL },
       { name := "Default", font := ttfOpened, fontIndex := 2,
         style := FaceStyle.BOLD },
       { name := "Default", font := ttfOpened, fontIndex := 3,
         style := FaceStyle.ITALIC },
       { name := "Default", font := ttfOpened, fontIndex := 4,
         style := FaceStyle.BOLD_ITALIC },
       { name := "BookFont", font := ttfOpened, fontIndex := 5,
         style := FaceStyle.NORMAL }] }

end ChessFonts

namespace ChessFonts

/-- C2: `adjust_font_style` is the fixed truth table of the spec: it is the
weight adjustment composed with the italic adjustment, the two adjustments
commute (order independence), each adjustment realizes its half of the
table (`font_style = ITALIC` maps NORMAL→ITALIC and BOLD→BOLD_ITALIC;
`font_style = NORMAL` maps ITALIC→NORMAL and BOLD_ITALIC→BOLD;
`font_weight = BOLD` maps NORMAL→BOLD and ITALIC→BOLD_ITALIC;
`font_weight = NORMAL` maps BOLD→NORMAL and BOLD_ITALIC→ITALIC), and the
two end-to-end examples hold. -/
theorem adjust_font_style_truth_table :
    (∀ s fs fw : FaceStyle,
        adjust_font_style s fs fw = weightAdjust fw (italicAdjust fs s) ∧
        adjust_font_style s fs fw = italicAdjust fs (weightAdjust fw s))
    ∧ italicAdjust FaceStyle.ITALIC FaceStyle.NORMAL = FaceStyle.ITALIC
    ∧ italicAdjust FaceStyle.ITALIC FaceStyle.BOLD = FaceStyle.BOLD_ITALIC
    ∧ italicAdjust FaceStyle.NORMAL FaceStyle.ITALIC = FaceStyle.NORMAL
    ∧ italicAdjust FaceStyle.NORMAL FaceStyle.BOLD_ITALIC = FaceStyle.BOLD
    ∧ weightAdjust FaceStyle.BOLD FaceStyle.NORMAL = FaceStyle.BOLD
    ∧ weightAdjust FaceStyle.BOLD FaceStyle.ITALIC = FaceStyle.BOLD_ITALIC
    ∧ weightAdjust FaceStyle.NORMAL FaceStyle.BOLD = FaceStyle.NORMAL
    ∧ weightAdjust FaceStyle.NORMAL FaceStyle.BOLD_ITALIC = FaceStyle.ITALIC
    ∧ adjust_font_style FaceStyle.NORMAL FaceStyle.ITALIC FaceStyle.BOLD
        = FaceStyle.BOLD_ITALIC
    ∧ adjust_font_style FaceStyle.BOLD_ITALIC FaceStyle.NORMAL FaceStyle.NORMAL
        = FaceStyle.NORMAL := by
  refine ⟨fun s fs fw => ?_, rfl, rfl, rfl, rfl, rfl, rfl, rfl, rfl, rfl, rfl⟩
  cases s <;> cases fs <;> cases fw <;> exact ⟨rfl, rfl⟩

lemma cacheConsistent_nil (f : Face) : CacheConsistent f [] := by
  intro sz c g h
  exact Option.noConfusion h

lemma glyphAt_of_charIndex_zero (f : Face) (c sz : Int)
    (h0 : f.charIndex c = 0) : glyphAt f c sz = none := by
  simp [glyphAt, h0]

lemma cacheFind_none_of_charIndex_zero (f : Face) (s : TTFState) (c sz : Int)
    (hcons : CacheConsistent f s.cache) (h0 : f.charIndex c = 0) :
    cacheFind s.cache sz c = none := by
  cases h : cacheFind s.cache sz c with
  | none => rfl
  | some g =>
      have := hcons sz c g h
      rw [glyphAt_of_charIndex_zero f c sz h0] at this
      exact Option.noConfusion this

/-- C10: calling `get_glyph` on a `TTF` whose font resource is not open
(`face == nullptr`, as after a failed load or after `clear_face`) returns
null immediately: no rasterization is attempted and the whole state — in
particular the glyph cache — is unchanged; and `clear_face` indeed leaves
the face null. -/
theorem get_glyph_no_face (s : TTFState) (c sz : Int) (hf : s.face = none) :
    get_glyph s c sz = (none, s, ⟨false, false⟩) ∧
    (clear_face s).face = none := by
  constructor
  · simp [get_glyph, get_glyph_internal, hf]
  · rfl

/-- Witness for C10, at the state reached by `clear_face` after two real
`get_glyph` calls. -/
theorem get_glyph_no_face_witness :
    get_glyph (clear_face ttfS2) 65 10 = (none, clear_face ttfS2, ⟨false, false⟩) ∧
    (clear_face (clear_face ttfS2)).face = none :=
  get_glyph_no_face (clear_face ttfS2) 65 10 rfl

/-- C7: on a consistent cache, requesting a charcode the face has no glyph
for (`FT_Get_Char_Index` returns 0) yields null, performs no
rasterization (`FT_Load_Glyph` is never reached), and leaves the glyph
cache unchanged. (The `LOG_E` message is outside the model.) -/
theorem get_glyph_unknown_charcode (s : TTFState) (f : Face) (c sz : Int)
    (hf : s.face = some f) (h0 : f.charIndex c = 0)
    (hcons : CacheConsistent f s.cache) :
    (get_glyph s c sz).1 = none ∧
    (get_glyph s c sz).2.1.cache = s.cache ∧
    (get_glyph s c sz).2.2.rasterized = false := by
  have hmiss := cacheFind_none_of_charIndex_zero f s c sz hcons h0
  simp only [get_glyph, get_glyph_internal, hf, hmiss, h0, if_true]
  refine ⟨trivial, ?_, trivial⟩
  split <;> rfl

/-- Witness for C7: charcode 67 has no glyph in the synthetic face. -/
theorem get_glyph_unknown_charcode_witness :
    (get_glyph ttfS0 67 10).1 = none ∧
    (get_glyph ttfS0 67 10).2.1.cache = ttfS0.cache ∧
    (get_glyph ttfS0 67 10).2.2.rasterized = false :=
  get_glyph_unknown_charcode ttfS0 testFace 67 10 rfl rfl
    (cacheConsistent_nil testFace)

lemma glyphsFind_insert (g : List (Int × BitmapGlyph)) (c : Int)
    (gl : BitmapGlyph) (c' : Int) :
    glyphsFind (glyphsInsert g c gl) c' =
      if c = c' then some gl else glyphsFind g c' := by
  induction g with
  | nil => simp [glyphsInsert, glyphsFind]
  | cons hd tl ih =>
      obtain ⟨c0, gl0⟩ := hd
      by_cases h0 : c0 = c
      · subst h0
        by_cases h1 : c0 = c'
        · subst h1
          simp [glyphsInsert, glyphsFind]
        · simp [glyphsInsert, glyphsFind, h1]
      · by_cases h1 : c0 = c'
        · subst h1
          simp [glyphsInsert, glyphsFind, h0,
            show ¬c = c0 from fun h => h0 h.symm]
        · simp [glyphsInsert, glyphsFind, h0, h1, ih]

lemma cacheFind_insert (cache : GlyphsCache) (sz c : Int) (g : BitmapGlyph)
    (sz' c' : Int) :
    cacheFind (cacheInsert cache sz c g) sz' c' =
      if sz = sz' ∧ c = c' then some g else cacheFind cache sz' c' := by
  induction cache with
  | nil =>
      by_cases h0 : sz = sz'
      · subst h0
        by_cases h1 : c = c' <;> simp [cacheInsert, cacheFind, glyphsFind, h1]
      · simp [cacheInsert, cacheFind, h0]
  | cons hd tl ih =>
      obtain ⟨sz0, gl0⟩ := hd
      by_cases h0 : sz0 = sz
      · subst h0
        by_cases h1 : sz0 = sz'
        · subst h1
          simp [cacheInsert, cacheFind, glyphsFind_insert]
        · simp [cacheInsert, cacheFind, h1,
            show ¬(sz0 = sz' ∧ c = c') from fun h => h1 h.1]
      · by_cases h1 : sz0 = sz'
        · subst h1
          simp [cacheInsert, cacheFind, h0,
            show ¬(sz = sz0 ∧ c = c') from fun h => h0 h.1.symm]
        · simp [cacheInsert, cacheFind, h0, h1, ih]

lemma cacheConsistent_insert (f : Face) (cache : GlyphsCache) (sz c : Int)
    (g : BitmapGlyph) (hcons : CacheConsistent f cache)
    (hg : glyphAt f c sz = some g) :
    CacheConsistent f (cacheInsert cache sz c g) := by
  intro sz' c' g' h
  rw [cacheFind_insert] at h
  split at h
  · rename_i hc
    obtain ⟨h1, h2⟩ := hc
    subst h1
    subst h2
    cases h
    exact hg
  · exact hcons _ _ _ h

lemma ttf_set_size_if (s : TTFState) (sz : Int) :
    (if s.current_size ≠ sz then { s with current_size := sz } else s) =
      { s with current_size := sz } := by
  split
  · rfl
  · rename_i h
    rw [not_not] at h
    cases s
    simp_all

lemma get_glyph_internal_miss_proj (s : TTFState) (f : Face) (c sz : Int)
    (hf : s.face = some f) (hmiss : cacheFind s.cache sz c = none) :
    (get_glyph_internal s c sz).2.1.face = s.face ∧
    (get_glyph_internal s c sz).2.2.set_size_called
        = decide (s.current_size ≠ sz) ∧
    (get_glyph_internal s c sz).1 = glyphAt f c sz ∧
    (glyphAt f c sz = none →
        (get_glyph_internal s c sz).2.1.cache = s.cache) ∧
    (∀ g, glyphAt f c sz = some g →
        (get_glyph_internal s c sz).2.1 =
          { s with current_size := sz, cache := cacheInsert s.cache sz c g } ∧
        (get_glyph_internal s c sz).2.2.rasterized = true) := by
  obtain ⟨fc, cur, ca⟩ := s
  dsimp only at hf hmiss ⊢
  subst hf
  by_cases hc : cur = sz
  · subst hc
    simp only [get_glyph_internal, hmiss, glyphAt]
    split_ifs with h1 h2 h3 <;> simp_all
  · simp only [get_glyph_internal, hmiss, glyphAt, hc]
    split_ifs with h1 h2 h3 <;> simp_all

/-- C3 counterexample: after `get_glyph(65, 10)` (cached at size 10) and
`get_glyph(66, 12)` (last-used size now 12), a further `get_glyph(65, 10)`
is a cache hit: it returns the very glyph produced by the first call, yet
`set_font_size` is NOT invoked although the requested size 10 differs from
the last-used size 12 — refuting the claim that the rasterization context
is re-configured exactly when the requested size differs from the
last-used size. -/
theorem get_glyph_set_size_exactly_counterexample :
    ttfS2.current_size = 12 ∧
    (get_glyph ttfS2 65 10).1 = (get_glyph ttfS0 65 10).1 ∧
    (get_glyph ttfS2 65 10).1 = some glyphA ∧
    (get_glyph ttfS2 65 10).2.2.set_size_called = false := by
  refine ⟨by decide, by decide, by decide, by decide⟩

/-- C3 (amended): on a face that is open, a `get_glyph` call that hits the
cache at `(s, c)` returns the cached glyph unchanged-state, without
rasterizing and without re-configuring the rasterization context; a call
that misses re-configures the context (`set_font_size`) exactly when the
requested size differs from the face's last-used size, and (when the face
rasterizes the charcode successfully) rasterizes the glyph, inserts it
keyed by `(s, c)`, and every later call with the same `(c, s)` returns
that cached glyph without rasterizing again. -/
theorem get_glyph_cache_discipline (s : TTFState) (f : Face) (c sz : Int)
    (hf : s.face = some f) :
    (∀ g, cacheFind s.cache sz c = some g →
        get_glyph s c sz = (some g, s, ⟨false, false⟩)) ∧
    (cacheFind s.cache sz c = none →
        ((get_glyph s c sz).2.2.set_size_called = true ↔ s.current_size ≠ sz) ∧
        (∀ g, glyphAt f c sz = some g →
          get_glyph s c sz =
            (some g,
             { s with current_size := sz, cache := cacheInsert s.cache sz c g },
             ⟨decide (s.current_size ≠ sz), true⟩) ∧
          cacheFind (cacheInsert s.cache sz c g) sz c = some g ∧
          get_glyph
              { s with current_size := sz, cache := cacheInsert s.cache sz c g }
              c sz =
            (some g,
             { s with current_size := sz, cache := cacheInsert s.cache sz c g },
             ⟨false, false⟩))) := by
  constructor
  · intro g h
    simp [get_glyph, get_glyph_internal, hf, h]
  · intro hmiss
    obtain ⟨_, hset, hres, _, hsome⟩ :=
      get_glyph_internal_miss_proj s f c sz hf hmiss
    constructor
    · rw [show (get_glyph s c sz).2.2.set_size_called
            = (get_glyph_internal s c sz).2.2.set_size_called from rfl, hset]
      simp
    · intro g hg
      obtain ⟨hstate, hrast⟩ := hsome g hg
      have hfind : cacheFind (cacheInsert s.cache sz c g) sz c = some g := by
        simp [cacheFind_insert]
      refine ⟨?_, hfind, ?_⟩
      · have ht : get_glyph s c sz =
            ((get_glyph_internal s c sz).1, (get_glyph_internal s c sz).2.1,
             ⟨(get_glyph_internal s c sz).2.2.set_size_called,
              (get_glyph_internal s c sz).2.2.rasterized⟩) := rfl
        rw [ht, hres, hg, hstate, hset, hrast]
      · simp [get_glyph, get_glyph_internal, hf, hfind]

/-- Witness for C3 (amended), at the fresh state `ttfS0`: a miss for
`(65, 10)` with a successful rasterization. -/
theorem get_glyph_cache_discipline_witness :
    ((get_glyph ttfS0 65 10).2.2.set_size_called = true ↔
        ttfS0.current_size ≠ 10) ∧
    get_glyph ttfS0 65 10 =
      (some glyphA,
       { ttfS0 with current_size := 10, cache := cacheInsert ttfS0.cache 10 65 glyphA },
       ⟨decide (ttfS0.current_size ≠ 10), true⟩) ∧
    cacheFind (cacheInsert ttfS0.cache 10 65 glyphA) 10 65 = some glyphA ∧
    get_glyph
        { ttfS0 with current_size := 10, cache := cacheInsert ttfS0.cache 10 65 glyphA } 65 10 =
      (some glyphA,
       { ttfS0 with current_size := 10, cache := cacheInsert ttfS0.cache 10 65 glyphA },
       ⟨false, false⟩) := by
  have h := (get_glyph_cache_discipline ttfS0 testFace 65 10 rfl).2 rfl
  have h2 := h.2 glyphA rfl
  exact ⟨h.1, h2.1, h2.2.1, h2.2.2⟩

lemma get_glyph_internal_consistent (s : TTFState) (f : Face) (c sz : Int)
    (hf : s.face = some f) (hcons : CacheConsistent f s.cache) :
    (get_glyph_internal s c sz).1 = glyphAt f c sz ∧
    (get_glyph_internal s c sz).2.1.face = some f ∧
    CacheConsistent f (get_glyph_internal s c sz).2.1.cache := by
  cases h : cacheFind s.cache sz c with
  | some g =>
      have hg := hcons sz c g h
      simp only [get_glyph_internal, hf, h]
      exact ⟨hg.symm, trivial, hcons⟩
  | none =>
      obtain ⟨hfa, _, hres, hnone, hsome⟩ :=
        get_glyph_internal_miss_proj s f c sz hf h
      refine ⟨hres, by rw [hfa, hf], ?_⟩
      cases hga : glyphAt f c sz with
      | none => rw [hnone hga]; exact hcons
      | some g =>
          rw [(hsome g hga).1]
          exact cacheConsistent_insert f s.cache sz c g hcons hga

lemma if_gt_eq_max (a b : Int) : (if b > a then b else a) = max a b := by
  rcases le_or_lt b a with h | h
  · rw [if_neg (not_lt.mpr h), max_eq_left h]
  · rw [if_pos h, max_eq_right (le_of_lt h)]

lemma get_size_loop_spec (f : Face) (n : Int) :
    ∀ (cs : List Int) (s : TTFState) (w mu md : Int),
      s.face = some f → CacheConsistent f s.cache →
      (get_size_loop s cs n w mu md).1 = w + widthSpec f cs n ∧
      (get_size_loop s cs n w mu md).2.1 =
        (cs.filterMap (fun c => glyphAt f c n)).foldl
          (fun m g => max m (-g.yoff)) mu ∧
      (get_size_loop s cs n w mu md).2.2.1 =
        (cs.filterMap (fun c => glyphAt f c n)).foldl
          (fun m g => max m (g.height + g.yoff)) md := by
  intro cs
  induction cs with
  | nil =>
      intro s w mu md hf hcons
      simp [get_size_loop, widthSpec]
  | cons c rest ih =>
      intro s w mu md hf hcons
      obtain ⟨hres, hface, hcons'⟩ := get_glyph_internal_consistent s f c n hf hcons
      rcases hr : get_glyph_internal s c n with ⟨og, s1, ev⟩
      simp only [hr] at hres hface hcons'
      cases og with
      | none =>
          have hga : glyphAt f c n = none := hres.symm
          simp only [get_size_loop, hr]
          have := ih s1 w mu md hface hcons'
          simpa [widthSpec, List.filterMap_cons, hga] using this
      | some g =>
          have hga : glyphAt f c n = some g := hres.symm
          simp only [get_size_loop, hr, if_gt_eq_max]
          obtain ⟨h1, h2, h3⟩ :=
            ih s1 (w + g.advance) (max mu (-g.yoff))
              (max md (g.height + g.yoff)) hface hcons'
          refine ⟨?_, ?_, ?_⟩
          · rw [h1]
            simp [widthSpec, List.filterMap_cons, hga]
            ring
          · rw [h2]
            simp [List.filterMap_cons, hga]
          · rw [h3]
            simp [List.filterMap_cons, hga]

/-- C1: on a consistent cache, `get_size(str, dim, N)` computes
`dim.width` as the sum of the advances (at size `N`) of the characters of
`str` that have a glyph, and `dim.height` as the maximal ascent plus the
maximal descent over those characters; only the `TTF` state (its glyph
cache and configured size) is threaded — `TTF` holds no page-layout
state, so none is mutated. -/
theorem get_size_spec (s : TTFState) (f : Face) (str : List Int) (n : Int)
    (hf : s.face = some f) (hcons : CacheConsistent f s.cache) :
    (get_size s str n).1 =
      ⟨widthSpec f str n, ascentSpec f str n + descentSpec f str n⟩ := by
  obtain ⟨h1, h2, h3⟩ := get_size_loop_spec f n str s 0 0 0 hf hcons
  rcases hr : get_size_loop s str n 0 0 0 with ⟨w, mu, md, s1⟩
  simp only [hr] at h1 h2 h3
  simp only [get_size, hr]
  simp only [ascentSpec, descentSpec, widthSpec] at h1 h2 h3 ⊢
  rw [Dim.mk.injEq]
  omega

/-- Witness for C1: a concrete string with a glyph-less charcode (67)
mixed in, measured at size 10 on the synthetic face. -/
theorem get_size_spec_witness :
    (get_size ttfS0 [65, 66, 67, 65] 10).1 =
      ⟨widthSpec testFace [65, 66, 67, 65] 10,
       ascentSpec testFace [65, 66, 67, 65] 10 +
         descentSpec testFace [65, 66, 67, 65] 10⟩ :=
  get_size_spec ttfS0 testFace [65, 66, 67, 65] 10 rfl
    (cacheConsistent_nil testFace)

lemma countKey_pos_of_any (st : FontsState) (name : String) (style : FaceStyle)
    (hany : st.font_cache.any
      (fun e => e.name == name && e.style == style) = true) :
    1 ≤ countKey st name style := by
  obtain ⟨x, hx, hpx⟩ := List.any_eq_true.mp hany
  have hmem : x ∈ st.font_cache.filter
      (fun e => e.name == name && e.style == style) :=
    List.mem_filter.mpr ⟨hx, hpx⟩
  have := List.length_pos.mpr (List.ne_nil_of_mem hmem)
  unfold countKey
  omega

lemma countKey_zero_of_not_any (st : FontsState) (name : String)
    (style : FaceStyle)
    (hany : ¬ st.font_cache.any
      (fun e => e.name == name && e.style == style) = true) :
    countKey st name style = 0 := by
  unfold countKey
  rw [List.length_eq_zero, List.filter_eq_nil_iff]
  intro a ha hpa
  exact hany (List.any_eq_true.mpr ⟨a, ha, hpa⟩)

/-- C4: `Fonts::add` is idempotent: when the font resource opens
successfully and the registry keys are unique (at most one entry per
`(name, style)` — an invariant `add` maintains), two identical `add` calls
leave exactly one entry for `(name, style)`; the second call returns true
without attempting to open the resource and leaves the registry unchanged.
When the open fails and no entry exists, `add` returns false and the
registry is unchanged (no partial entry). -/
theorem add_idempotent (openFont : String → Option TTFState) (st : FontsState)
    (name : String) (style : FaceStyle) (fn : String)
    (hu : countKey st name style ≤ 1) :
    (∀ ttf, openFont fn = some ttf →
      countKey (Fonts_add openFont st name style fn).2.1 name style = 1 ∧
      (Fonts_add openFont (Fonts_add openFont st name style fn).2.1
          name style fn).1 = true ∧
      (Fonts_add openFont (Fonts_add openFont st name style fn).2.1
          name style fn).2.2 = false ∧
      (Fonts_add openFont (Fonts_add openFont st name style fn).2.1
          name style fn).2.1 = (Fonts_add openFont st name style fn).2.1) ∧
    (openFont fn = none → countKey st name style = 0 →
      (Fonts_add openFont st name style fn).1 = false ∧
      (Fonts_add openFont st name style fn).2.1 = st) := by
  by_cases hany : st.font_cache.any
      (fun e => e.name == name && e.style == style) = true
  · have hst : Fonts_add openFont st name style fn = (true, st, false) := by
      simp [Fonts_add, hany]
    have hc1 := countKey_pos_of_any st name style hany
    constructor
    · intro ttf _
      simp only [hst]
      exact ⟨by omega, trivial, trivial, trivial⟩
    · intro _ hc0
      omega
  · have hc0 := countKey_zero_of_not_any st name style hany
    constructor
    · intro ttf hopen
      have h1 : Fonts_add openFont st name style fn =
          (true,
           FontsState.mk (st.font_cache ++
             [FontEntry.mk name ttf st.font_cache.length style]),
           true) := by
        simp [Fonts_add, hany, hopen]
      have hpred : ((FontEntry.mk name ttf st.font_cache.length style).name
            == name &&
          (FontEntry.mk name ttf st.font_cache.length style).style
            == style) = true := by
        simp
      have hany2 : (st.font_cache ++
          [FontEntry.mk name ttf st.font_cache.length style]).any
            (fun e => e.name == name && e.style == style) = true := by
        rw [List.any_eq_true]
        exact ⟨_, by simp, hpred⟩
      have h2 : Fonts_add openFont
          (FontsState.mk (st.font_cache ++
            [FontEntry.mk name ttf st.font_cache.length style]))
          name style fn =
          (true,
           FontsState.mk (st.font_cache ++
             [FontEntry.mk name ttf st.font_cache.length style]),
           false) := by
        simp [Fonts_add, hany2]
      have hck : countKey
          (FontsState.mk (st.font_cache ++
            [FontEntry.mk name ttf st.font_cache.length style]))
          name style = 1 := by
        unfold countKey at hc0 ⊢
        simp only [List.filter_append, List.length_append]
        rw [hc0]
        simp [List.filter_cons, hpred]
      simp only [h1]
      exact ⟨hck, by simp only [h2], by simp only [h2], by simp only [h2]⟩
    · intro hopen _
      have h1 : Fonts_add openFont st name style fn = (false, st, true) := by
        simp [Fonts_add, hany, hopen]
      simp only [h1]
      exact ⟨trivial, trivial⟩

/-- Witness for C4: adding twice to an empty registry with an open that
succeeds. -/
theorem add_idempotent_witness :
    countKey (Fonts_add (fun _ => some ttfOpened) (FontsState.mk [])
        "Default" FaceStyle.NORMAL "f.otf").2.1 "Default" FaceStyle.NORMAL
      = 1 ∧
    (Fonts_add (fun _ => some ttfOpened)
        (Fonts_add (fun _ => some ttfOpened) (FontsState.mk [])
          "Default" FaceStyle.NORMAL "f.otf").2.1
        "Default" FaceStyle.NORMAL "f.otf").1 = true ∧
    (Fonts_add (fun _ => some ttfOpened)
        (Fonts_add (fun _ => some ttfOpened) (FontsState.mk [])
          "Default" FaceStyle.NORMAL "f.otf").2.1
        "Default" FaceStyle.NORMAL "f.otf").2.2 = false ∧
    (Fonts_add (fun _ => some ttfOpened)
        (Fonts_add (fun _ => some ttfOpened) (FontsState.mk [])
          "Default" FaceStyle.NORMAL "f.otf").2.1
        "Default" FaceStyle.NORMAL "f.otf").2.1 =
      (Fonts_add (fun _ => some ttfOpened) (FontsState.mk [])
        "Default" FaceStyle.NORMAL "f.otf").2.1 :=
  (add_idempotent (fun _ => some ttfOpened) (FontsState.mk [])
    "Default" FaceStyle.NORMAL "f.otf" (by decide)).1 ttfOpened rfl

lemma clearLoop_true (l : List FontEntry) : ∀ i, clearLoop true i l = l := by
  induction l with
  | nil => intro i; rfl
  | cons e rest ih => intro i; simp [clearLoop, ih]

lemma clearLoop_false (l : List FontEntry) : ∀ i, clearLoop false i l =
    (l.take (5 - i)).map (fun e => { e with font := clear_cache e.font }) ++
      l.drop (5 - i) := by
  induction l with
  | nil => intro i; simp [clearLoop]
  | cons e rest ih =>
      intro i
      by_cases hi : 5 ≤ i
      · have h5 : 5 - i = 0 := by omega
        have hrest := ih (i + 1)
        rw [show 5 - (i + 1) = 0 from by omega] at hrest
        simp only [List.take_zero, List.map_nil, List.nil_append,
          List.drop_zero] at hrest
        simp [clearLoop, hi, h5, hrest]
      · have h5 : 5 - i = (5 - (i + 1)) + 1 := by omega
        simp [clearLoop, hi, h5, ih (i + 1)]

lemma clearLoop_length (all : Bool) (l : List FontEntry) :
    ∀ i, (clearLoop all i l).length = l.length := by
  induction l with
  | nil => intro i; rfl
  | cons e rest ih => intro i; simp [clearLoop, ih]

/-- C5: `clear(false)` on a registry holding at least the five built-in
entries keeps exactly the first five, with names, styles and opened faces
intact and only their glyph caches purged, and discards every later
(book-supplied) entry; `clear(true)` empties the registry entirely. -/
theorem clear_keeps_first_five (st : FontsState)
    (h5 : 5 ≤ st.font_cache.length) :
    Fonts_clear st false =
      FontsState.mk ((st.font_cache.take 5).map
        (fun e => { e with font := clear_cache e.font })) ∧
    Fonts_clear st true = FontsState.mk [] := by
  have htake : ∀ (A B : List FontEntry), A.length = 5 → (A ++ B).take 5 = A := by
    intro A B hA
    rw [← hA, List.take_left]
  constructor
  · have hcl := clearLoop_false st.font_cache 0
    simp only [Nat.sub_zero] at hcl
    unfold Fonts_clear listResize
    rw [if_neg (Bool.false_ne_true), hcl]
    have hA : ((st.font_cache.take 5).map
        (fun e => { e with font := clear_cache e.font })).length = 5 := by
      simp [List.length_take]
      omega
    rw [if_pos (by simp [List.length_take, List.length_drop]; omega)]
    rw [htake _ _ hA]
  · unfold Fonts_clear listResize
    rw [if_pos rfl, clearLoop_true]
    simp

/-- Witness for C5: a six-entry registry (the five built-ins plus one
book-supplied font). -/
theorem clear_keeps_first_five_witness :
    Fonts_clear fontsSt6 false =
      FontsState.mk ((fontsSt6.font_cache.take 5).map
        (fun e => { e with font := clear_cache e.font })) ∧
    Fonts_clear fontsSt6 true = FontsState.mk [] :=
  clear_keeps_first_five fontsSt6 (by decide)

/-- C6: on a non-empty registry (whose size fits the signed 16-bit index
domain), `Fonts::get(index)` never faults: it returns the font of the
entry at `index` when `index` is in range, and the font of the entry at
index 0 when `index` is out of range (too large or negative). -/
theorem get_fallback (st : FontsState) (index : Int) (e0 : FontEntry)
    (h0 : st.font_cache.get? 0 = some e0)
    (hlen : st.font_cache.length ≤ 32768)
    (hlo : -32768 ≤ index) (hhi : index < 32768) :
    (Fonts_get st index).isSome = true ∧
    (∀ e, 0 ≤ index → st.font_cache.get? index.toNat = some e →
        Fonts_get st index = some e.font) ∧
    ((st.font_cache.length : Int) ≤ index → Fonts_get st index = some e0.font) ∧
    (index < 0 → Fonts_get st index = some e0.font) := by
  refine ⟨?_, ?_, ?_, ?_⟩
  · by_cases h : st.font_cache.length ≤ (index % 4294967296).toNat
    · simp only [Fonts_get]
      rw [if_pos h, h0]
      rfl
    · simp only [Fonts_get]
      rw [if_neg h]
      rw [not_le] at h
      rcases hcase : st.font_cache.get? ((index % 4294967296).toNat) with _ | e
      · rw [List.get?_eq_none] at hcase
        omega
      · simp
  · intro e hpos he
    have hidxU : (index % 4294967296).toNat = index.toNat := by omega
    have hlt : index.toNat < st.font_cache.length := by
      by_contra hc
      rw [not_lt] at hc
      rw [List.get?_eq_none.mpr hc] at he
      exact Option.noConfusion he
    simp only [Fonts_get, hidxU]
    rw [if_neg (by omega), he]
    rfl
  · intro hge
    have hidxU : (index % 4294967296).toNat = index.toNat := by omega
    simp only [Fonts_get, hidxU]
    rw [if_pos (by omega), h0]
    rfl
  · intro hneg
    have hcl : st.font_cache.length ≤ (index % 4294967296).toNat := by omega
    simp only [Fonts_get]
    rw [if_pos hcl, h0]
    rfl

/-- Witness for C6: the one-entry registry, probed with the in-range index
0 and with the out-of-range index 2. -/
theorem get_fallback_witness :
    (Fonts_get fontsSt1 2).isSome = true ∧
    ((fontsSt1.font_cache.length : Int) ≤ 2 →
        Fonts_get fontsSt1 2 = some entry1.font) ∧
    Fonts_get fontsSt1 0 = some entry1.font :=
  ⟨(get_fallback fontsSt1 2 entry1 rfl (by decide) (by decide) (by decide)).1,
   (get_fallback fontsSt1 2 entry1 rfl (by decide) (by decide) (by decide)).2.2.1,
   (get_fallback fontsSt1 0 entry1 rfl (by decide) (by decide) (by decide)).2.1
     entry1 (by decide) rfl⟩

/-- C9: a negative index, compared against the unsigned container size
after integer conversion, wraps to a huge unsigned value, is classified
out of range, and takes the index-0 fallback path — the vector is never
indexed with a negative value. -/
theorem get_negative_index_fallback (st : FontsState) (index : Int)
    (e0 : FontEntry) (h0 : st.font_cache.get? 0 = some e0)
    (hlen : st.font_cache.length ≤ 32768)
    (hneg : index < 0) (hlo : -32768 ≤ index) :
    st.font_cache.length ≤ ((index % (4294967296 : Int))).toNat ∧
    Fonts_get st index = some e0.font := by
  have hcl : st.font_cache.length ≤ (index % 4294967296).toNat := by omega
  refine ⟨hcl, ?_⟩
  simp only [Fonts_get]
  rw [if_pos hcl, h0]
  rfl

/-- Witness for C9: index -1 on the one-entry registry. -/
theorem get_negative_index_fallback_witness :
    fontsSt1.font_cache.length ≤ (((-1 : Int) % (4294967296 : Int))).toNat ∧
    Fonts_get fontsSt1 (-1) = some entry1.font :=
  get_negative_index_fallback fontsSt1 (-1) entry1 rfl (by decide)
    (by decide) (by decide)

lemma byte_pool_alloc_step (B : Nat) (t : PoolState) (sz : Nat) (b : PoolBuff)
    (t' : PoolState) (hsz : sz ≤ B)
    (h : byte_pool_alloc B t sz = some (b, t')) :
    (t'.byte_pools = t.byte_pools + 1 ↔
      (t.byte_pools = 0 ∨ t.byte_pool_idx + sz > B)) ∧
    (t'.byte_pools = t.byte_pools + 1 → b.off = 0) ∧
    (t'.byte_pools = t.byte_pools ∨ t'.byte_pools = t.byte_pools + 1) ∧
    b.chunk = t'.byte_pools ∧ b.size = sz ∧ b.off + b.size ≤ B ∧
    t'.byte_pool_idx = b.off + b.size := by
  unfold byte_pool_alloc add_buff_to_byte_pool at h
  rw [if_neg (by omega)] at h
  by_cases hcond : t.byte_pools = 0 ∨ t.byte_pool_idx + sz > B
  · rw [if_pos hcond] at h
    have heq := Option.some.inj h
    rw [Prod.mk.injEq] at heq
    obtain ⟨hb, ht⟩ := heq
    subst hb
    subst ht
    refine ⟨by simpa using hcond, by simp, by simp, by simp, by simp, by simp; omega, by simp⟩
  · rw [if_neg hcond] at h
    have heq := Option.some.inj h
    rw [Prod.mk.injEq] at heq
    obtain ⟨hb, ht⟩ := heq
    subst hb
    subst ht
    push_neg at hcond
    refine ⟨by simp; omega, by simp, by simp, by simp, by simp, by simp; omega, by simp⟩

/-- C8: for every sequence of byte-pool allocation requests each at most
the chunk size `B` (`BYTE_POOL_SIZE`), starting from a state whose cursor
is within the chunk: no request aborts, the cursor never exceeds the chunk
size, and every returned buffer lies entirely within its single chunk
(`off + size ≤ B`); moreover each single allocation opens a fresh chunk —
resetting the cursor — exactly when the pool is empty or the cursor plus
the request would exceed the chunk size, and otherwise just bumps the
cursor within the current chunk. -/
theorem byte_pool_discipline (B : Nat) (s : PoolState) (sizes : List Nat)
    (hsz : ∀ sz ∈ sizes, sz ≤ B) (hidx : s.byte_pool_idx ≤ B) :
    (∃ bs sf, runAllocs B s sizes = some (bs, sf) ∧
       sf.byte_pool_idx ≤ B ∧ ∀ b ∈ bs, b.off + b.size ≤ B) ∧
    (∀ (t t' : PoolState) (sz : Nat) (b : PoolBuff), sz ≤ B →
       byte_pool_alloc B t sz = some (b, t') →
       (t'.byte_pools = t.byte_pools + 1 ↔
         (t.byte_pools = 0 ∨ t.byte_pool_idx + sz > B)) ∧
       (t'.byte_pools = t.byte_pools + 1 → b.off = 0) ∧
       (t'.byte_pools = t.byte_pools ∨ t'.byte_pools = t.byte_pools + 1) ∧
       b.chunk = t'.byte_pools ∧ b.size = sz ∧ b.off + b.size ≤ B ∧
       t'.byte_pool_idx = b.off + b.size) := by
  have main : ∀ (zs : List Nat) (t : PoolState), (∀ sz ∈ zs, sz ≤ B) →
      t.byte_pool_idx ≤ B →
      ∃ bs sf, runAllocs B t zs = some (bs, sf) ∧
        sf.byte_pool_idx ≤ B ∧ ∀ b ∈ bs, b.off + b.size ≤ B := by
    intro zs
    induction zs with
    | nil =>
        intro t _ ht
        exact ⟨[], t, rfl, ht, by simp⟩
    | cons sz rest ih =>
        intro t hz ht
        have hszB : sz ≤ B := hz sz (by simp)
        rcases hb : byte_pool_alloc B t sz with _ | ⟨b, t1⟩
        · exfalso
          unfold byte_pool_alloc at hb
          rw [if_neg (by omega)] at hb
          exact Option.noConfusion hb
        · obtain ⟨_, _, _, _, hbsz, hoff, hidx1⟩ :=
            byte_pool_alloc_step B t sz b t1 hszB hb
          obtain ⟨bs, sf, hrun, hsf, hall⟩ :=
            ih t1 (fun z hzz => hz z (by simp [hzz])) (by omega)
          refine ⟨b :: bs, sf, ?_, hsf, ?_⟩
          · simp [runAllocs, hb, hrun]
          · intro x hx
            rcases List.mem_cons.mp hx with rfl | hx
            · omega
            · exact hall x hx
  exact ⟨main sizes s hsz hidx,
    fun t t' sz b hszB h => byte_pool_alloc_step B t sz b t' hszB h⟩

/-- Witness for C8: five requests against chunk size 8, crossing two chunk
boundaries and including a full-chunk and a zero-size request. -/
theorem byte_pool_discipline_witness :
    ∃ bs sf, runAllocs 8 (PoolState.mk 0 0) [3, 4, 5, 8, 0] = some (bs, sf) ∧
      sf.byte_pool_idx ≤ 8 ∧ ∀ b ∈ bs, b.off + b.size ≤ 8 :=
  (byte_pool_discipline 8 (PoolState.mk 0 0) [3, 4, 5, 8, 0]
    (by decide) (by decide)).1

end ChessFonts
